import Mathlib

/-!
Verification of the mock-debug stepping engine.

The definitions below are a shallow embedding of the Go engine
(`mock-go/internal/engine/engine.go`), the complete single-file variant of
the stepping engine that the three implementations of this repository
share.  Machine integers are modelled as `Int` (the Go `int` instruction
pointer goes negative during reverse scans) or `Nat` where the source keeps
them non-negative; Go maps are modelled as association lists; a Go panic
(out-of-range slice index) is modelled by an `Option` result being `none`.
String offsets are character counts, which coincide with Go's byte offsets
on the ASCII inputs the engine manipulates.
-/

namespace MockEngine

/-- ASCII letter test, the character class of the Go word regexp `[a-zA-Z]+`. -/
def isAsciiLetter (c : Char) : Bool :=
  (97 ≤ c.toNat && c.toNat ≤ 122) || (65 ≤ c.toNat && c.toNat ≤ 90)

/-- ASCII digit test, the character class `[0-9]`. -/
def isAsciiDigit (c : Char) : Bool :=
  48 ≤ c.toNat && c.toNat ≤ 57

/-- Letter-or-digit, the class `[a-zA-Z0-9]` of the variable-name regexp. -/
def isAlnum (c : Char) : Bool :=
  isAsciiLetter c || isAsciiDigit c

/-- Regexp word character `\w = [0-9A-Za-z_]`, used for `\b` boundaries. -/
def isReWordChar (c : Char) : Bool :=
  isAlnum c || c = '_'

/-- ASCII whitespace, the characters `strings.TrimSpace` strips from the
engine's inputs (space and the control characters 9–13; the engine's
protocol traffic is ASCII, so the further unicode space classes of Go's
`unicode.IsSpace` cannot occur). -/
def isSpaceChar (c : Char) : Bool :=
  c.toNat = 32 || (9 ≤ c.toNat && c.toNat ≤ 13)

/-- Go `strings.TrimSpace`: drop leading and trailing whitespace.
(Defined on the character list so that it evaluates inside the kernel;
the core `String.trim` does not reduce there.) -/
def trimString (s : String) : String :=
  String.mk (((s.toList.dropWhile isSpaceChar).reverse.dropWhile isSpaceChar).reverse)

/-- One tokenized word: Go `type Word struct { Name; Line; Index }`. -/
structure Word where
  name : String
  line : Nat
  index : Nat
deriving Repr, DecidableEq

/-- Worker for `getWords`: scans the characters of a line, accumulating the
current maximal run of letters (`cur` holds its start offset and reversed
characters) and emitting a `Word` when the run ends. -/
def wordRuns (l : Nat) (cs : List Char) (i : Nat) (cur : Option (Nat × List Char)) :
    List Word :=
  match cs with
  | [] =>
      match cur with
      | some (st, acc) => [⟨String.mk acc.reverse, l, st⟩]
      | none => []
  | c :: rest =>
      if isAsciiLetter c then
        match cur with
        | some (st, acc) => wordRuns l rest (i + 1) (some (st, c :: acc))
        | none => wordRuns l rest (i + 1) (some (i, [c]))
      else
        match cur with
        | some (st, acc) => ⟨String.mk acc.reverse, l, st⟩ :: wordRuns l rest (i + 1) none
        | none => wordRuns l rest (i + 1) none

/-- Go `getWords(l, line)`: all maximal runs of ASCII letters on the raw
line, with their line number and start offset (`wordRe = [a-zA-Z]+`). -/
def getWords (l : Nat) (line : String) : List Word :=
  wordRuns l line.toList 0 none

/-- Split a character list at each newline; like `String.split` on
`(· = '\n')`, one part more than the number of newlines. -/
def splitOnNl : List Char → List (List Char)
  | [] => [[]]
  | c :: rest =>
      if c = '\n' then [] :: splitOnNl rest
      else
        match splitOnNl rest with
        | p :: ps => (c :: p) :: ps
        | [] => [[c]]

/-- Go `splitLines` (a `bufio.Scanner` with the default `ScanLines` split):
tokens are separated by `\n`, a token's single trailing `\r` is dropped,
and no final empty token is produced when the input ends in a newline;
empty input yields no lines. -/
def splitLines (s : String) : List String :=
  if s.toList.isEmpty then []
  else
    let parts := splitOnNl s.toList
    let parts := if s.toList.getLast? = some '\n' then parts.dropLast else parts
    parts.map (fun p =>
      if p.getLast? = some '\r' then String.mk p.dropLast else String.mk p)

/-- First index (if any) at which the literal `pat` occurs in `cs`. -/
def firstOccur (pat : List Char) : List Char → Option Nat
  | [] => if pat = [] then some 0 else none
  | c :: rest =>
      if pat.isPrefixOf (c :: rest) then some 0
      else (firstOccur pat rest).map (· + 1)

/-- Index of the first occurrence of character `c` in `cs`. -/
def firstIdxOf (c : Char) (cs : List Char) : Option Nat :=
  firstOccur [c] cs

/-- Index of the last occurrence of character `c` in `cs`. -/
def lastIdxOf (c : Char) (cs : List Char) : Option Nat :=
  match cs with
  | [] => none
  | a :: rest =>
      match lastIdxOf c rest with
      | some j => some (j + 1)
      | none => if a = c then some 0 else none

/-- Maximal run of `[a-zA-Z0-9]` characters at the head of `cs`, together
with the remainder. -/
def takeAlnum (cs : List Char) : List Char × List Char :=
  (cs.takeWhile isAlnum, cs.dropWhile isAlnum)

/-- Value alternation of the Go variable regexp
`(false|true|[0-9]+(\.[0-9]+)?|\".*\"|\{.*\})`, tried at the position just
after `=`.  Returns the matched token; the alternatives are attempted in
the written order (the Go regexp engine is leftmost-first), `.*` is greedy
(it reaches to the last closing delimiter on the line), and the optional
fraction of a number is taken only when at least one digit follows the dot. -/
def tryValueToken (cs : List Char) : Option (List Char) :=
  if ("false".toList).isPrefixOf cs then some "false".toList
  else if ("true".toList).isPrefixOf cs then some "true".toList
  else
    match cs with
    | [] => none
    | c :: rest =>
        if isAsciiDigit c then
          let ds := cs.takeWhile isAsciiDigit
          let rest1 := cs.dropWhile isAsciiDigit
          match rest1 with
          | '.' :: rest2 =>
              let fs := rest2.takeWhile isAsciiDigit
              if fs = [] then some ds else some (ds ++ '.' :: fs)
          | _ => some ds
        else if c = '"' then
          match lastIdxOf '"' rest with
          | some j => some ('"' :: rest.take j ++ ['"'])
          | none => none
        else if c = '{' then
          match lastIdxOf '}' rest with
          | some j => some ('{' :: rest.take j ++ ['}'])
          | none => none
        else none

/-- One match of the Go variable regexp
`\$([a-zA-Z][a-zA-Z0-9]*)(=(false|true|[0-9]+(\.[0-9]+)?|\".*\"|\{.*\}))?`:
the captured name and, when the optional `=value` group matched, the value
token (group 3). -/
structure VarMatch where
  name : String
  value : Option String
deriving Repr, DecidableEq

/-- Fuelled worker for `varMatches`.  Every recursive call strictly shortens
the character list, so running it with `fuel = cs.length` never truncates:
when the fuel is exhausted the list is already empty. -/
def varScanAux : Nat → List Char → List VarMatch
  | 0, _ => []
  | fuel + 1, cs =>
      match cs with
      | [] => []
      | '$' :: c :: rest =>
          if isAsciiLetter c then
            let al := rest.takeWhile isAlnum
            let rest1 := rest.dropWhile isAlnum
            let name := String.mk (c :: al)
            match rest1 with
            | '=' :: rest2 =>
                match tryValueToken rest2 with
                | some tok =>
                    ⟨name, some (String.mk tok)⟩ :: varScanAux fuel (rest2.drop tok.length)
                | none => ⟨name, none⟩ :: varScanAux fuel ('=' :: rest2)
            | _ => ⟨name, none⟩ :: varScanAux fuel rest1
          else varScanAux fuel (c :: rest)
      | _ :: rest => varScanAux fuel rest

/-- All non-overlapping, leftmost matches of the variable regexp in `text`
(Go `rwVarRe.FindAllStringSubmatchIndex`): at a `$` followed by a letter the
name is the maximal alphanumeric run; a following `=` contributes a value
token only when one of the value alternatives matches there, otherwise the
optional group stays empty and scanning resumes at the `=`. -/
def varMatches (text : String) : List VarMatch :=
  varScanAux text.toList.length text.toList

/-- Try the output regexp `(log|prio|out|err)\(([^\)]*)\)` at the head of
`cs`: each keyword (in alternation order; their first letters are distinct)
must be followed by `(`, and the payload runs to the first `)` — which must
exist, or the match at this position fails.  Returns the category, the
payload and the total match length. -/
def tryLogAt (cs : List Char) : Option (String × String × Nat) :=
  (["log", "prio", "out", "err"].map (fun kw =>
      if (kw.toList ++ ['(']).isPrefixOf cs then
        let rest := cs.drop (kw.length + 1)
        match firstIdxOf ')' rest with
        | some j => some (kw, String.mk (rest.take j), kw.length + 1 + j + 1)
        | none => none
      else none)).findSome? id

/-- Fuelled worker for `logMatches`; the position `i` tracks the current
character offset.  A successful match advances past its whole extent, a
failure advances one character, so `fuel = cs.length` is always enough. -/
def logScanAux : Nat → List Char → Nat → List (String × String × Nat)
  | 0, _, _ => []
  | fuel + 1, cs, i =>
      match cs with
      | [] => []
      | _ :: rest =>
          match tryLogAt cs with
          | some (cat, payload, len) =>
              (cat, payload, i) :: logScanAux fuel (cs.drop len) (i + len)
          | none => logScanAux fuel rest (i + 1)

/-- All non-overlapping, leftmost matches of the Go output regexp
`logRe = (log|prio|out|err)\(([^\)]*)\)` with their start offsets
(Go `logRe.FindAllStringSubmatchIndex`). -/
def logMatches (text : String) : List (String × String × Nat) :=
  logScanAux text.toList.length text.toList 0

/-- Leftmost match of the Go regexp `excName = exception\((.*)\)`: the
first occurrence of the literal `exception(` that is followed by a `)`,
with the greedy group reaching to the last `)` of the line.  (If the
earliest occurrence has no `)` after its opening parenthesis, no later
occurrence can have one either, so the whole regexp fails.) -/
def excNameMatch (cs : List Char) : Option String :=
  match firstOccur ("exception(".toList) cs with
  | some i =>
      match lastIdxOf ')' cs with
      | some j =>
          if i + 10 ≤ j then some (String.mk ((cs.drop (i + 10)).take (j - (i + 10))))
          else none
      | none => none
  | none => none

/-- Worker for `excToken`: scans for an occurrence of `exception` with a
regexp word boundary (`\b`) on both sides; `prev` is the character just
before the current position, if any. -/
def excTokenAux (prev : Option Char) (cs : List Char) : Bool :=
  match cs with
  | [] => false
  | c :: rest =>
      ((match prev with
        | some p => !isReWordChar p
        | none => true)
       && ("exception".toList).isPrefixOf cs
       && (match cs.drop 9 with
           | [] => true
           | d :: _ => !isReWordChar d))
      || excTokenAux (some c) rest

/-- Go `excToken = \bexception\b`: the bare word `exception` occurs with a
word boundary on each side. -/
def excToken (cs : List Char) : Bool :=
  excTokenAux none cs

/-- Runtime values stored in the engine's `locals` map.  Go keeps them as
`any`; the shapes produced by `parseToken` are a boolean, an unquoted
string, the fixed synthetic four-field record for `{...}` tokens, and the
raw token text for everything else (Go leaves numeric tokens unparsed). -/
inductive Value where
  | vBool (b : Bool)
  | vStr (s : String)
  | vRecord
  | vRaw (s : String)
deriving Repr, DecidableEq

/-- Go `parseToken`: `true`/`false` become booleans, a token both starting
and ending with `"` is stripped of all leading and trailing quotes
(`strings.Trim(t, "\"")`), a token starting with `{` becomes the fixed
synthetic record, and anything else is kept as the raw token text. -/
def parseToken (t : String) : Value :=
  if t = "true" then .vBool true
  else if t = "false" then .vBool false
  else if t.toList.head? = some '"' && t.toList.getLast? = some '"' then
    .vStr (String.mk (((t.toList.dropWhile (fun c => c = '"')).reverse.dropWhile
      (fun c => c = '"')).reverse))
  else if t.toList.head? = some '{' then .vRecord
  else .vRaw t

/-- Events emitted to the `Debugger` sink (Go interface `Debugger`).  Each
constructor mirrors one callback; `OnBreakpointValidated` carries the id
and the verified flag, `OnOutput` a category, text, file, line and column. -/
inductive Event where
  | stopOnEntry (line : Nat) (column : Option Int)
  | stopOnStep (line : Nat) (column : Option Int)
  | stopOnBreakpoint (line : Nat) (column : Option Int)
  | stopOnException (line : Nat) (exc : Option String) (column : Option Int)
  | stopOnDataBreakpoint (line : Nat) (column : Option Int)
  | stopOnInstructionBreakpoint (line : Nat) (column : Option Int)
  | stopOnPause (line : Nat) (column : Option Int)
  | breakpointValidated (id : Nat) (verified : Bool)
  | output (category : String) (text : String) (file : String) (line : Nat) (column : Nat)
  | onEnd
deriving Repr, DecidableEq

/-- A stop event is any `stopped` notification: entry, step, breakpoint,
exception, data breakpoint, instruction breakpoint or pause.  Output,
breakpoint-validated and termination events are not stops. -/
def Event.isStop : Event → Bool
  | .stopOnEntry _ _ => true
  | .stopOnStep _ _ => true
  | .stopOnBreakpoint _ _ => true
  | .stopOnException _ _ _ => true
  | .stopOnDataBreakpoint _ _ => true
  | .stopOnInstructionBreakpoint _ _ => true
  | .stopOnPause _ _ => true
  | _ => false

/-- Recognizer for data-breakpoint stop events. -/
def Event.isDataBpStop : Event → Bool
  | .stopOnDataBreakpoint _ _ => true
  | _ => false

/-- Go `type Breakpoint struct { ID; Line; Verified }`. -/
structure Breakpoint where
  id : Nat
  line : Int
  verified : Bool
deriving Repr, DecidableEq

/-- Lookup in an association list (the embedding of a Go map read). -/
def assocLookup {α : Type} (l : List (String × α)) (k : String) : Option α :=
  (l.find? (fun p => p.1 = k)).map (fun p => p.2)

/-- Write to an association list (the embedding of a Go map write):
replaces the binding if the key is present, otherwise prepends it. -/
def assocSet {α : Type} (l : List (String × α)) (k : String) (v : α) :
    List (String × α) :=
  if (l.find? (fun p => p.1 = k)).isSome then
    l.map (fun p => if p.1 = k then (k, v) else p)
  else (k, v) :: l

/-- The engine state, Go `type Engine struct`.  `instruction` is an `Int`
because the Go instruction pointer is decremented below zero by reverse
scans; `seenVars` is the set of names seen by assignment (the Go field
`variables`, a `map[string]struct{}`; the name `variables` is a reserved
word in Lean); `paused` is the cooperative pause flag. -/
structure Engine where
  sourceFile : String
  sourceLines : List String
  currentLine : Nat
  currentCol : Option Int
  instruction : Int
  instructions : List Word
  starts : List Nat
  ends : List Nat
  nextBpID : Nat
  bps : List (String × List Breakpoint)
  namedException : Option String
  otherExceptions : Bool
  dataBps : List (String × String)
  instrBps : List Int
  seenVars : List String
  locals : List (String × Value)
  paused : Bool
deriving Repr, DecidableEq

/-- Go `New(d)`: the initial engine, with no source loaded, empty
breakpoint registries, and the breakpoint id counter at 1. -/
def initEngine : Engine where
  sourceFile := ""
  sourceLines := []
  currentLine := 0
  currentCol := none
  instruction := 0
  instructions := []
  starts := []
  ends := []
  nextBpID := 1
  bps := []
  namedException := none
  otherExceptions := false
  dataBps := []
  instrBps := []
  seenVars := []
  locals := []
  paused := false

/-- Go `getLine(line)`: the raw source line, or the empty string when the
index is out of range (negative indices cannot arise: the current line is
kept non-negative by every operation). -/
def getLine (e : Engine) (ln : Nat) : String :=
  match e.sourceLines.get? ln with
  | some s => s
  | none => ""

/-- Go `verifyLine(path, line)`: false when the line index is outside the
loaded source (in particular whenever no source is loaded, since then the
source has zero lines), otherwise true iff the line's trimmed text is
non-empty.  No clamping to a nearby valid line takes place. -/
def verifyLine (e : Engine) (line : Int) : Bool :=
  if line < 0 || (e.sourceLines.length : Int) ≤ line then false
  else !((trimString (e.sourceLines.getD line.toNat "")).toList.isEmpty)

/-- Worker for `LoadSource`: walks the lines accumulating the instruction
counter `pc`, recording each line's `[start, end)` range in the global
instruction stream (Go appends `len(e.instructions)` before and after the
line's words). -/
def buildIndexAux (i pc : Nat) : List String → List Word × List Nat × List Nat
  | [] => ([], [], [])
  | line :: rest =>
      let ws := getWords i line
      let (ins, ss, es) := buildIndexAux (i + 1) (pc + ws.length) rest
      (ws ++ ins, pc :: ss, (pc + ws.length) :: es)

/-- Go `LoadSource(path, contents)`: splits the contents into lines,
resets the cursor to line 0 with no column, rebuilds the instruction
stream with the per-line `starts`/`ends` ranges from scratch, and points
the instruction pointer at `starts[0]` (or 0 for an empty source).  The
breakpoint registries, variables and pause flag are not touched.  (Go
normalizes the path with `filepath.Abs`, an environment-dependent
operation modelled here as the identity on already-normalized paths.) -/
def LoadSource (e : Engine) (path : String) (contents : String) : Engine :=
  let lines := splitLines contents
  let r := buildIndexAux 0 0 lines
  { e with
      sourceFile := path
      sourceLines := lines
      currentLine := 0
      currentCol := none
      instructions := r.1
      starts := r.2.1
      ends := r.2.2
      instruction := (r.2.1.headD 0 : Nat) }

/-- Go `Pause()`: a no-op when already paused; otherwise marks the engine
paused, echoes the trimmed current line as an output event, then emits the
pause stop event. -/
def Pause (e : Engine) : Engine × List Event :=
  if e.paused then (e, [])
  else
    ({ e with paused := true },
     [.output "stdout" (trimString (getLine e e.currentLine)) e.sourceFile e.currentLine 0,
      .stopOnPause e.currentLine e.currentCol])

/-- Go `StepIn(targetID)`: with a target the column is set to it directly;
without one it is incremented by one, or initialized to 1 when unset (no
clamping of any kind).  The line never changes and exactly one step event
is emitted. -/
def StepIn (e : Engine) (targetId : Option Int) : Engine × List Event :=
  let e' :=
    match targetId with
    | some t => { e with currentCol := some t }
    | none =>
        match e.currentCol with
        | some c => { e with currentCol := some (c + 1) }
        | none => { e with currentCol := some 1 }
  (e', [.stopOnStep e'.currentLine e'.currentCol])

/-- Go `StepOut()`: decrements the column when set, unsetting it when the
result is not positive; the line never changes and exactly one step event
is emitted. -/
def StepOut (e : Engine) : Engine × List Event :=
  let e' :=
    match e.currentCol with
    | some c => if c - 1 ≤ 0 then { e with currentCol := none }
                else { e with currentCol := some (c - 1) }
    | none => e
  (e', [.stopOnStep e'.currentLine e'.currentCol])

/-- Go `SetVariable(name, value)`: writes the local value table and
nothing else — in particular the seen-variables set is untouched. -/
def SetVariable (e : Engine) (name : String) (value : Value) : Engine :=
  { e with locals := assocSet e.locals name value }

/-- Go `SetExceptionsFilters(named, others)`: replaces both filters. -/
def SetExceptionsFilters (e : Engine) (named : Option String) (others : Bool) : Engine :=
  { e with namedException := named, otherExceptions := others }

/-- Go `SetDataBreakpoint(address, access)`: `readWrite` is normalized to
`read write`; a differing already-registered mode widens to `read write`;
always succeeds. -/
def SetDataBreakpoint (e : Engine) (address access : String) : Engine × Bool :=
  let a := if access = "readWrite" then "read write" else access
  match assocLookup e.dataBps address with
  | some cur =>
      if cur ≠ a then ({ e with dataBps := assocSet e.dataBps address "read write" }, true)
      else (e, true)
  | none => ({ e with dataBps := assocSet e.dataBps address a }, true)

/-- Go `SetInstructionBreakpoint(addr)`: adds the address to the set. -/
def SetInstructionBreakpoint (e : Engine) (addr : Int) : Engine × Bool :=
  ({ e with instrBps := if e.instrBps.contains addr then e.instrBps else addr :: e.instrBps },
   true)

/-- Worker for `SetBreakpoints`: one fresh breakpoint per requested line,
ids assigned from the counter `nid`, with one `breakpointValidated` event
apiece; returns the new list, the events and the advanced counter. -/
def setBpsAux (verify : Int → Bool) : Nat → List Int → List Breakpoint × List Event × Nat
  | nid, [] => ([], [], nid)
  | nid, l :: rest =>
      let v := verify l
      let (bps, evs, nid') := setBpsAux verify (nid + 1) rest
      (⟨nid, l, v⟩ :: bps, Event.breakpointValidated nid v :: evs, nid')

/-- Go `SetBreakpoints(path, lines)`: replaces the whole breakpoint list
for the path with fresh breakpoints, verifying each line immediately and
emitting one `OnBreakpointValidated` per requested line, synchronously.
Returns the fresh list (Go returns the same data as its `res` maps).
(The Go path normalization `filepath.Abs` is modelled as the identity.) -/
def SetBreakpoints (e : Engine) (path : String) (lines : List Int) :
    Engine × List Event × List Breakpoint :=
  let r := setBpsAux (verifyLine e) e.nextBpID lines
  ({ e with bps := assocSet e.bps path r.1, nextBpID := r.2.2 }, r.2.1, r.1)

/-- Forward instruction-breakpoint scan of `executeLine` (Go:
`for e.instruction < end { e.instruction++; if bp hit { stop } }`).  The
fuel is exactly the number of loop iterations, `(endd - instr).toNat`.
Returns the final instruction pointer and whether a breakpoint was hit. -/
def instrScanFwdAux (bps : List Int) : Nat → Int → Int × Bool
  | 0, instr => (instr, false)
  | n + 1, instr =>
      let i := instr + 1
      if bps.contains i then (i, true) else instrScanFwdAux bps n i

/-- Forward scan entry point: visits `instr+1, …, endd` in order. -/
def instrScanFwd (instr endd : Int) (bps : List Int) : Int × Bool :=
  instrScanFwdAux bps (endd - instr).toNat instr

/-- Reverse instruction-breakpoint scan of `executeLine` (Go:
`for e.instruction >= start { e.instruction--; if bp hit { stop } }`);
fuel is the iteration count `(instr - start + 1).toNat`.  Visits
`instr-1, …, start-1` in order (the pointer ends one below the range). -/
def instrScanRevAux (bps : List Int) : Nat → Int → Int × Bool
  | 0, instr => (instr, false)
  | n + 1, instr =>
      let i := instr - 1
      if bps.contains i then (i, true) else instrScanRevAux bps n i

/-- Reverse scan entry point. -/
def instrScanRev (instr start : Int) (bps : List Int) : Int × Bool :=
  instrScanRevAux bps (instr - start + 1).toNat instr

/-- The variable-access scan of `executeLine`, folded over the regexp
matches in order: an assignment whose name was already seen is a `write`
access and (re)marks the name seen and stores the parsed token in the
locals; a bare reference is a `read` access only when the name was seen;
a classified access contained (as a substring, Go `strings.Contains`) in
the name's registered data-breakpoint mode stops the scan immediately.
Returns the new seen-set, the new locals, and the stop flag. -/
def runVarScan (dataBps : List (String × String)) :
    List String → List (String × Value) → List VarMatch →
    List String × List (String × Value) × Bool
  | seen, locals, [] => (seen, locals, false)
  | seen, locals, m :: rest =>
      match m.value with
      | some tok =>
          let access : Option String := if seen.contains m.name then some "write" else none
          let seen' := if seen.contains m.name then seen else m.name :: seen
          let locals' := assocSet locals m.name (parseToken tok)
          if (match access, assocLookup dataBps m.name with
              | some a, some flg => (firstOccur a.toList flg.toList).isSome
              | _, _ => false) then
            (seen', locals', true)
          else runVarScan dataBps seen' locals' rest
      | none =>
          let access : Option String := if seen.contains m.name then some "read" else none
          if (match access, assocLookup dataBps m.name with
              | some a, some flg => (firstOccur a.toList flg.toList).isSome
              | _, _ => false) then
            (seen, locals, true)
          else runVarScan dataBps seen locals rest

/-- The exception check of `executeLine`: a parenthesized
`exception(name)` stops with the trimmed name when it equals the named
filter, else stops anonymously when "other exceptions" is on; without a
parenthesized match, a bare word `exception` stops anonymously when
"other exceptions" is on.  `some exc` means stop carrying `exc`. -/
def excCheck (named : Option String) (others : Bool) (text : String) :
    Option (Option String) :=
  match excNameMatch text.toList with
  | some raw =>
      let ex := trimString raw
      if named = some ex then some (some ex)
      else if others then some none
      else none
  | none => if excToken text.toList && others then some none else none

/-- Go `executeLine(ln, reverse)`: the four phases in order — instruction
breakpoint scan, variable-access scan with data breakpoints, output
emission, exception detection — each stopping phase short-circuiting the
later ones.  Returns `none` when Go would panic indexing `starts`/`ends`
out of range (the no-source state), otherwise the updated engine, the
emitted events and whether a stop event was emitted. -/
def executeLine (e : Engine) (ln : Nat) (reverse : Bool) :
    Option (Engine × List Event × Bool) :=
  match e.starts.get? ln, e.ends.get? ln with
  | some startA, some endA =>
      let scan := if reverse then instrScanRev e.instruction (startA : Int) e.instrBps
                  else instrScanFwd e.instruction (endA : Int) e.instrBps
      let e1 := { e with instruction := scan.1 }
      if scan.2 then
        some (e1, [.stopOnInstructionBreakpoint ln e.currentCol], true)
      else
        let text := trimString (getLine e ln)
        let vr := runVarScan e.dataBps e1.seenVars e1.locals (varMatches text)
        let e2 := { e1 with seenVars := vr.1, locals := vr.2.1 }
        if vr.2.2 then
          some (e2, [.stopOnDataBreakpoint ln e.currentCol], true)
        else
          let outs := (logMatches text).map
            (fun m => Event.output m.1 m.2.1 e.sourceFile ln m.2.2)
          match excCheck e.namedException e.otherExceptions text with
          | some exc => some (e2, outs ++ [.stopOnException ln exc e.currentCol], true)
          | none => some (e2, outs, false)
  | _, _ => none

/-- Go `updateCurrentLine(reverse)`: advances the current line one step;
walking past the start re-emits an entry stop at line 0, walking past the
end clears the column and reports termination to the caller (the `end`
event itself is the caller's job).  Returns the engine, the events and
whether the file boundary was reached. -/
def updateCurrentLine (e : Engine) (reverse : Bool) : Engine × List Event × Bool :=
  if reverse then
    if 0 < e.currentLine then ({ e with currentLine := e.currentLine - 1 }, [], false)
    else ({ e with currentLine := 0, currentCol := none },
          [.stopOnEntry 0 none], true)
  else
    if e.currentLine < e.sourceLines.length - 1 then
      ({ e with currentLine := e.currentLine + 1 }, [], false)
    else ({ e with currentCol := none }, [], true)

/-- Worker for `findNextStatement`, the Go `for ln := e.currentLine; ; {…}`
loop.  Per iteration: a registered breakpoint on `ln` stops (lazily
emitting a validated event when the breakpoint was unverified — on a copy,
as in Go, so the stored flag is not updated); then the line-boundary
address (`starts[ln]` in reverse, `ends[ln]-1` forward; Go indexes the
slices here, so an out-of-range `ln` is a panic, modelled as `none`) is
checked against the instruction breakpoints; then a non-blank line ends
the search.  Blank lines advance `ln`, stopping at either end of the file
with the current line left unchanged.  The fuel bounds the iterations; one
more than the line count is always enough.  Returns the engine, events,
and whether a stop event was emitted. -/
def findStmtAux (e : Engine) (reverse : Bool) : Nat → Nat → Option (Engine × List Event × Bool)
  | 0, _ => none
  | fuel + 1, ln =>
      match ((assocLookup e.bps e.sourceFile).getD []).find?
          (fun bp => bp.line = (ln : Int)) with
      | some bp =>
          some ({ e with currentLine := ln },
                (if bp.verified then [] else [Event.breakpointValidated bp.id true]) ++
                  [.stopOnBreakpoint ln e.currentCol], true)
      | none =>
          match e.starts.get? ln, e.ends.get? ln with
          | some startA, some endA =>
              let addr : Int := if reverse then (startA : Int) else (endA : Int) - 1
              if e.instrBps.contains addr then
                some ({ e with currentLine := ln },
                      [.stopOnInstructionBreakpoint ln e.currentCol], true)
              else if !((trimString (getLine e ln)).toList.isEmpty) then
                some ({ e with currentLine := ln }, [], false)
              else if reverse then
                if ln = 0 then some (e, [], false)
                else findStmtAux e reverse fuel (ln - 1)
              else
                if e.sourceLines.length ≤ ln + 1 then some (e, [], false)
                else findStmtAux e reverse fuel (ln + 1)
          | _, _ => none

/-- Go `findNextStatement(reverse)`: scan from the current line for the
first line with a registered breakpoint, a line-boundary instruction
breakpoint, or non-blank text. -/
def findNextStatement (e : Engine) (reverse : Bool) : Option (Engine × List Event × Bool) :=
  findStmtAux e reverse (e.sourceLines.length + 1) e.currentLine

/-- The instruction-pointer normalization shared by Go `Continue` and
`Next`: when the current line is within `starts`, snap the pointer to the
line's last instruction (reverse; 0 when the line's `end` is 0) or to its
first instruction (forward). -/
def normalizeInstr (e : Engine) (reverse : Bool) : Option Engine :=
  if e.currentLine < e.starts.length then
    if reverse then
      match e.ends.get? e.currentLine with
      | some endA => some { e with instruction := if 0 < endA then (endA : Int) - 1 else 0 }
      | none => none
    else
      match e.starts.get? e.currentLine with
      | some startA => some { e with instruction := (startA : Int) }
      | none => none
  else some e

/-- Go `Next(reverse)` ("step over"): normalize the pointer, run one pass
of `executeLine`; when it does not stop, advance the line and scan for the
next statement, then emit a step event — unconditionally, even when the
line-advance or the statement scan already emitted a stop event of their
own.  Returns `none` where Go panics (no source loaded). -/
def Next (e : Engine) (reverse : Bool) : Option (Engine × List Event) :=
  match normalizeInstr e reverse with
  | none => none
  | some e0 =>
      match executeLine e0 e0.currentLine reverse with
      | none => none
      | some (e1, evs1, stopped) =>
          if stopped then some (e1, evs1)
          else
            let (e2, evs2, fin) := updateCurrentLine e1 reverse
            if fin then
              some (e2, evs1 ++ evs2 ++ [.stopOnStep e2.currentLine e2.currentCol])
            else
              match findNextStatement e2 reverse with
              | none => none
              | some (e3, evs3, _) =>
                  some (e3, evs1 ++ evs2 ++ evs3 ++ [.stopOnStep e3.currentLine e3.currentCol])

/-- The Go `Continue` loop body, with fuel for the outer `for {}` (each
iteration either returns or advances the current line toward a file end,
so `sourceLines.length + 2` is always enough).  Checks the cooperative
pause flag once per iteration; a stopping `executeLine` ends the loop; a
file boundary emits `OnEnd` (after the entry stop, in reverse); otherwise
the statement scan either stops or picks the next line to execute. -/
def continueAux (reverse : Bool) : Nat → Engine → Option (Engine × List Event)
  | 0, _ => none
  | fuel + 1, e =>
      if e.paused then
        some ({ e with paused := false }, [.stopOnPause e.currentLine e.currentCol])
      else
        match executeLine e e.currentLine reverse with
        | none => none
        | some (e1, evs1, stopped) =>
            if stopped then some (e1, evs1)
            else
              let (e2, evs2, fin) := updateCurrentLine e1 reverse
              if fin then some (e2, evs1 ++ evs2 ++ [.onEnd])
              else
                match findNextStatement e2 reverse with
                | none => none
                | some (e3, evs3, found) =>
                    if found then some (e3, evs1 ++ evs2 ++ evs3)
                    else
                      match continueAux reverse fuel e3 with
                      | none => none
                      | some (e4, evs4) => some (e4, evs1 ++ evs2 ++ evs3 ++ evs4)

/-- Go `Continue(reverse)`: normalize the instruction pointer for the
direction, clear the pause flag, then loop until a stop condition, a file
end, or an observed pause.  Returns `none` where Go panics (no source). -/
def Continue (e : Engine) (reverse : Bool) : Option (Engine × List Event) :=
  match normalizeInstr e reverse with
  | none => none
  | some e0 => continueAux reverse (e0.sourceLines.length + 2) { e0 with paused := false }

/-! ### Concrete engines used by the scenario claims -/

/-- The five-line scenario program of spec §8, loaded into a fresh engine:
`["", "log(hello)", "$x=1", "$x", "exception(Err)"]`. -/
def scenarioEngine : Engine :=
  LoadSource initEngine "p.md" "\nlog(hello)\n$x=1\n$x\nexception(Err)"

/-- The scenario engine with the exception filters set to
(`"Err"`, other-exceptions off). -/
def scenarioEngineErr : Engine :=
  SetExceptionsFilters scenarioEngine (some "Err") false

/-- A one-line source `"a"`, for exercising `Next` at the file boundary. -/
def oneLineEngine : Engine := LoadSource initEngine "p.md" "a"

/-! ### Claim theorems -/

/-- C3: on the five-line scenario program with no breakpoints and no
exception filters, `Continue(false)` from line 0 emits exactly the output
event (`log`, `hello`, line 1) followed by exactly one `OnEnd`, and no
stop event of any kind: the blank line 0 is skipped, the assignment on
line 2 yields no classified access (the name was unseen), the read on
line 3 matches no registered data breakpoint, and the named exception on
line 4 matches no filter. -/
theorem c3_continue_scenario :
    (Continue scenarioEngine false).map (fun r => r.2) =
      some [Event.output "log" "hello" "p.md" 1 0, Event.onEnd] ∧
    (Continue scenarioEngine false).map (fun r => r.2.filter Event.isStop) = some [] := by
  constructor <;> decide

/-- C2 (failing evaluation): a single `Next(reverse=true)` call at line 0
of a loaded one-line source emits two stop events — the line-advance's
`stopOnEntry` and then the unconditional trailing `stopOnStep` — so `Next`
does not always yield exactly one stop. -/
theorem c2_next_two_stop_events :
    (Next oneLineEngine true).map (fun r => r.2) =
      some [Event.stopOnEntry 0 none, Event.stopOnStep 0 none] ∧
    (Next oneLineEngine true).map (fun r => (r.2.filter Event.isStop).length) = some 2 := by
  constructor <;> decide

/-- C9 (failing evaluation): on the initial engine, before any source is
loaded, `Continue` and `Next` reach the out-of-range index `starts[0]` of
the empty range slices and panic (modelled as `none`) instead of degrading
to a no-op; the line/word lookups themselves do return empty results, and
`Pause`, `StepIn` and `StepOut` complete normally. -/
theorem c9_continue_next_panic_without_source :
    Continue initEngine false = none ∧ Continue initEngine true = none ∧
    Next initEngine false = none ∧ Next initEngine true = none ∧
    getLine initEngine 0 = "" ∧ getWords 0 (getLine initEngine 0) = [] ∧
    (Pause initEngine).2 =
      [Event.output "stdout" "" "" 0 0, Event.stopOnPause 0 none] ∧
    (StepIn initEngine none).2 = [Event.stopOnStep 0 (some 1)] ∧
    (StepOut initEngine).2 = [Event.stopOnStep 0 none] := by
  refine ⟨?_, ?_, ?_, ?_, ?_, ?_, ?_, ?_, ?_⟩ <;> decide

/-- An engine on the two-character line `"ab"` whose column was set to 2
(the line length) by a targeted step-in. -/
def colAtLineEndEngine : Engine :=
  (StepIn (LoadSource initEngine "p.md" "ab") (some 2)).1

/-- C7 (counterexample): from column 2 on the line `"ab"` of length 2, a
target-less `StepIn` moves the column to 3, strictly beyond the line
length — the engine does not clamp the column to the line's length. -/
theorem c7_stepin_exceeds_line_length :
    (StepIn colAtLineEndEngine none).1.currentCol = some 3 ∧
    ((getLine colAtLineEndEngine 0).length : Int) = 2 ∧ ¬((3 : Int) ≤ 2) := by
  refine ⟨?_, ?_, ?_⟩ <;> decide

/-- C7 (amended): `StepIn` with a target sets the column to exactly the
target id; without a target it sets the column to 1 when unset and
otherwise increments it by one with no clamping (the column may exceed
the line length); `StepOut` decrements the column when set and unsets it
when the result is not positive.  Neither operation changes the current
line, and each emits exactly one step event. -/
theorem c7_stepin_stepout_amended (e : Engine) (targetId : Option Int) :
    (StepIn e targetId).1.currentLine = e.currentLine ∧
    (StepIn e targetId).2 =
      [Event.stopOnStep e.currentLine (StepIn e targetId).1.currentCol] ∧
    (StepIn e targetId).1.currentCol =
      (match targetId with
       | some t => some t
       | none =>
           match e.currentCol with
           | some c => some (c + 1)
           | none => some 1) ∧
    (StepOut e).1.currentLine = e.currentLine ∧
    (StepOut e).2 = [Event.stopOnStep e.currentLine (StepOut e).1.currentCol] ∧
    (StepOut e).1.currentCol =
      (match e.currentCol with
       | some c => if c - 1 ≤ 0 then none else some (c - 1)
       | none => none) := by
  cases targetId <;> cases h : e.currentCol <;>
    simp [StepIn, StepOut, h, apply_ite (fun x : Engine => x.currentCol),
      apply_ite (fun x : Engine => x.currentLine)]

/-- C6: `Pause` on a not-paused engine marks it paused and emits exactly
the output event echoing the trimmed current line followed by the pause
stop, in that order; a second consecutive `Pause` emits nothing, so the
two calls together yield exactly one `OnStopOnPause`. -/
theorem c6_pause_idempotent (e : Engine) (h : e.paused = false) :
    Pause e =
      ({ e with paused := true },
       [Event.output "stdout" (trimString (getLine e e.currentLine)) e.sourceFile e.currentLine 0,
        Event.stopOnPause e.currentLine e.currentCol]) ∧
    (Pause (Pause e).1).2 = [] ∧
    (((Pause e).2 ++ (Pause (Pause e).1).2).filter
        (fun ev => match ev with | Event.stopOnPause _ _ => true | _ => false)).length
      = 1 := by
  refine ⟨?_, ?_, ?_⟩ <;> simp [Pause, h, List.filter]

/-- C6 witness: the initial engine is not paused, and pausing it twice
emits nothing on the second call. -/
theorem c6_pause_witness :
    initEngine.paused = false ∧ (Pause (Pause initEngine).1).2 = [] :=
  ⟨rfl, (c6_pause_idempotent initEngine rfl).2.1⟩

/-- Lookup after the map-rewrite branch of `assocSet`: rewriting every
binding of `k` to `v` makes a lookup of `k` return `v` whenever `k` was
bound, and leaves it unbound otherwise. -/
theorem assocLookup_map_set {α : Type} (l : List (String × α)) (k : String) (v : α) :
    assocLookup (l.map (fun p => if p.1 = k then (k, v) else p)) k
      = (assocLookup l k).map (fun _ => v) := by
  induction l with
  | nil => simp [assocLookup]
  | cons p rest ih =>
      by_cases hp : p.1 = k
      · simp [assocLookup, List.find?_cons, hp]
      · simp only [List.map_cons, if_neg hp, assocLookup] at ih ⊢
        rw [List.find?_cons_of_neg _ (by simp [hp]), List.find?_cons_of_neg _ (by simp [hp])]
        exact ih

/-- Writing a key and reading it back yields the written value: the
association-list embedding behaves as the Go map write it models. -/
theorem assocLookup_assocSet {α : Type} (l : List (String × α)) (k : String) (v : α) :
    assocLookup (assocSet l k v) k = some v := by
  unfold assocSet
  split
  · next hfind =>
      rw [assocLookup_map_set]
      rcases Option.isSome_iff_exists.mp hfind with ⟨p, hp⟩
      simp [assocLookup, hp]
  · simp [assocLookup, List.find?]

/-- Unrolled form of `setBpsAux`: the breakpoints are the requested lines
paired with consecutive ids starting at `nid`, each carrying its verified
flag; the events mirror them one-for-one; the counter advances by the
number of lines. -/
theorem setBpsAux_spec (verify : Int → Bool) (lines : List Int) : ∀ nid : Nat,
    setBpsAux verify nid lines =
      ((lines.enumFrom nid).map (fun p => ⟨p.1, p.2, verify p.2⟩),
       (lines.enumFrom nid).map (fun p => Event.breakpointValidated p.1 (verify p.2)),
       nid + lines.length) := by
  induction lines with
  | nil => intro nid; simp [setBpsAux, List.enumFrom]
  | cons l rest ih =>
      intro nid
      simp only [setBpsAux, ih (nid + 1), List.enumFrom, List.map_cons, List.length_cons,
        Prod.mk.injEq, true_and]
      omega

/-- C5: `SetBreakpoints` replaces the entire breakpoint list of the path
with one fresh breakpoint per requested line; the ids come consecutively
from the single counter (which advances by the number of lines, so ids are
never reused); each breakpoint's verified flag is computed immediately by
`verifyLine` — false for an out-of-range line (hence always false when no
source is loaded, the source then having zero lines; no clamping), and
otherwise true iff the line's trimmed text is non-empty; and exactly one
`OnBreakpointValidated` notification fires per requested line,
synchronously, in request order. -/
theorem c5_setbreakpoints (e : Engine) (path : String) (lines : List Int) :
    assocLookup (SetBreakpoints e path lines).1.bps path =
      some (SetBreakpoints e path lines).2.2 ∧
    (SetBreakpoints e path lines).2.2 =
      (lines.enumFrom e.nextBpID).map (fun p => ⟨p.1, p.2, verifyLine e p.2⟩) ∧
    (SetBreakpoints e path lines).2.1 =
      (lines.enumFrom e.nextBpID).map
        (fun p => Event.breakpointValidated p.1 (verifyLine e p.2)) ∧
    (SetBreakpoints e path lines).2.1.length = lines.length ∧
    (SetBreakpoints e path lines).1.nextBpID = e.nextBpID + lines.length ∧
    (∀ l : Int, verifyLine e l =
      (decide (0 ≤ l) && decide (l < (e.sourceLines.length : Int)) &&
       !((trimString (e.sourceLines.getD l.toNat "")).toList.isEmpty))) := by
  have hspec := setBpsAux_spec (verifyLine e) lines e.nextBpID
  refine ⟨?_, ?_, ?_, ?_, ?_, ?_⟩
  · show assocLookup (assocSet e.bps path (setBpsAux (verifyLine e) e.nextBpID lines).1)
      path = _
    rw [assocLookup_assocSet]
    rfl
  · simpa using congrArg (fun t => t.1) hspec
  · simpa using congrArg (fun t => t.2.1) hspec
  · have h2 := congrArg (fun t => t.2.1) hspec
    simp only at h2
    show (setBpsAux (verifyLine e) e.nextBpID lines).2.1.length = _
    rw [h2]
    simp [List.enumFrom_length]
  · simpa using congrArg (fun t => t.2.2) hspec
  · intro l
    unfold verifyLine
    by_cases h0 : l < 0
    · rw [if_pos (by simp [h0])]
      simp [show ¬(0 ≤ l) by omega]
    · by_cases h1 : (e.sourceLines.length : Int) ≤ l
      · rw [if_pos (by simp [h1])]
        simp [show ¬(l < (e.sourceLines.length : Int)) by omega]
      · rw [if_neg (by simp [h0, h1])]
        simp [show (0 ≤ l) by omega, show l < (e.sourceLines.length : Int) by omega]

/-- Shape of the range arrays built by `buildIndexAux`: both have one
entry per line, the first entry (if any) equals the running counter `pc`,
every line's start is at most its end (they are equal exactly when the
line tokenizes to no words), and every line's end is at most the next
line's start. -/
theorem buildIndexAux_spec (lines : List String) : ∀ i pc : Nat,
    ((buildIndexAux i pc lines).2.1).length = lines.length ∧
    ((buildIndexAux i pc lines).2.2).length = lines.length ∧
    ((buildIndexAux i pc lines).2.1).head? = lines.head?.map (fun _ => pc) ∧
    (∀ L s t, (buildIndexAux i pc lines).2.1.get? L = some s →
        (buildIndexAux i pc lines).2.2.get? L = some t →
        s ≤ t ∧ (getWords (i + L) (lines.getD L "") = [] → s = t)) ∧
    (∀ L s t, (buildIndexAux i pc lines).2.2.get? L = some t →
        (buildIndexAux i pc lines).2.1.get? (L + 1) = some s → t ≤ s) := by
  induction lines with
  | nil => intro i pc; simp [buildIndexAux]
  | cons line rest ih =>
      intro i pc
      obtain ⟨hl1, hl2, hhead, hrange, hchain⟩ := ih (i + 1) (pc + (getWords i line).length)
      refine ⟨by simp [buildIndexAux, hl1], by simp [buildIndexAux, hl2], by simp [buildIndexAux], ?_, ?_⟩
      · intro L s t hs ht
        match L, hs, ht with
        | 0, hs, ht =>
            simp only [buildIndexAux, List.get?_cons_zero, Option.some.injEq] at hs ht
            subst hs; subst ht
            refine ⟨by omega, ?_⟩
            intro hw
            simp only [Nat.add_zero, List.getD, List.get?_cons_zero, Option.getD_some] at hw
            simp [hw]
        | L + 1, hs, ht =>
            simp only [buildIndexAux, List.get?_cons_succ] at hs ht
            have h := hrange L s t hs ht
            refine ⟨h.1, ?_⟩
            intro hw
            refine h.2 ?_
            have : i + 1 + L = i + (L + 1) := by omega
            rw [this]
            simpa [List.getD] using hw
      · intro L s t ht hs
        match L, ht, hs with
        | 0, ht, hs =>
            simp only [buildIndexAux, List.get?_cons_zero, List.get?_cons_succ,
              Option.some.injEq] at ht hs
            subst ht
            cases rest with
            | nil =>
                simp [buildIndexAux] at hs
            | cons r rs =>
                rw [List.get?_zero, hhead] at hs
                simp only [List.head?_cons, Option.map_some', Option.some.injEq] at hs
                omega
        | L + 1, ht, hs =>
            simp only [buildIndexAux, List.get?_cons_succ] at ht hs
            exact hchain L s t ht hs

/-- C8: after every `LoadSource` — from any prior engine state, so
re-loads included — the rebuilt per-line range arrays satisfy
`starts[L] ≤ ends[L]`, and `ends[L] ≤ starts[L+1]` whenever line `L+1`
exists, with `starts[L] = ends[L]` exactly when line `L` is blank or
word-less; and this holds for every source text. -/
theorem c8_range_invariant (e : Engine) (path contents : String) (L : Nat) :
    (∀ s t, (LoadSource e path contents).starts.get? L = some s →
        (LoadSource e path contents).ends.get? L = some t → s ≤ t) ∧
    (∀ s t, (LoadSource e path contents).ends.get? L = some t →
        (LoadSource e path contents).starts.get? (L + 1) = some s → t ≤ s) ∧
    (∀ s t, (LoadSource e path contents).starts.get? L = some s →
        (LoadSource e path contents).ends.get? L = some t →
        getWords L ((LoadSource e path contents).sourceLines.getD L "") = [] → s = t) := by
  have hstarts : (LoadSource e path contents).starts
      = (buildIndexAux 0 0 (splitLines contents)).2.1 := rfl
  have hends : (LoadSource e path contents).ends
      = (buildIndexAux 0 0 (splitLines contents)).2.2 := rfl
  have hlines : (LoadSource e path contents).sourceLines = splitLines contents := rfl
  obtain ⟨-, -, -, hrange, hchain⟩ := buildIndexAux_spec (splitLines contents) 0 0
  rw [hstarts, hends, hlines]
  refine ⟨?_, ?_, ?_⟩
  · intro s t hs ht
    exact (hrange L s t hs ht).1
  · intro s t ht hs
    exact hchain L s t ht hs
  · intro s t hs ht hw
    refine (hrange L s t hs ht).2 ?_
    simpa using hw

/-- C8 witness: on the concrete source `"ab c\n\nx"`, line 0 has range
`[0, 2)` and the invariant instance `0 ≤ 2` follows from the theorem. -/
theorem c8_range_invariant_witness :
    (LoadSource initEngine "p.md" "ab c\n\nx").starts.get? 0 = some 0 ∧
    (LoadSource initEngine "p.md" "ab c\n\nx").ends.get? 0 = some 2 ∧ (0 : Nat) ≤ 2 :=
  ⟨by decide, by decide,
   (c8_range_invariant initEngine "p.md" "ab c\n\nx" 0).1 0 2 (by decide) (by decide)⟩

/-- C1: for every engine state, line and direction, `executeLine` runs the
instruction-breakpoint scan first: the pointer is walked one step at a
time within the line's range in the requested direction, and whenever the
walk hits a registered instruction breakpoint the call returns right
there with exactly one event, the `instructionBreakpoint` stop — no
`dataBreakpoint`, exception or output event is emitted and the
variable/seen/locals state is untouched, no matter what data breakpoints
or exception tokens are present on the line. -/
theorem c1_instruction_bp_preempts (e : Engine) (ln : Nat) (reverse : Bool)
    (startA endA : Nat)
    (hs : e.starts.get? ln = some startA) (he : e.ends.get? ln = some endA)
    (hhit : (if reverse then instrScanRev e.instruction (startA : Int) e.instrBps
             else instrScanFwd e.instruction (endA : Int) e.instrBps).2 = true) :
    executeLine e ln reverse =
      some ({ e with instruction :=
                (if reverse then instrScanRev e.instruction (startA : Int) e.instrBps
                 else instrScanFwd e.instruction (endA : Int) e.instrBps).1 },
            [Event.stopOnInstructionBreakpoint ln e.currentCol], true) := by
  unfold executeLine
  rw [hs, he]
  simp only [hhit, if_true]

/-- A concrete engine for the C1 witness: the one-line source
`"$x=1 exception(Err)"` with an instruction breakpoint at address 1
inside the line's range `[0, 3)`, a read/write data breakpoint on the
already-seen variable `x`, and the named exception filter `"Err"` — both
of which would stop this line if the instruction scan did not. -/
def c1Engine : Engine :=
  { SetExceptionsFilters
      (SetDataBreakpoint
        (SetInstructionBreakpoint
          (LoadSource initEngine "p.md" "$x=1 exception(Err)") 1).1
        "x" "readWrite").1
      (some "Err") false
    with seenVars := ["x"] }

/-- C1 witness: on `c1Engine`, the forward scan over line 0 hits address 1
and `executeLine` returns only the instruction-breakpoint stop. -/
theorem c1_instruction_bp_preempts_witness :
    c1Engine.starts.get? 0 = some 0 ∧ c1Engine.ends.get? 0 = some 3 ∧
    (instrScanFwd c1Engine.instruction (3 : Int) c1Engine.instrBps).2 = true ∧
    executeLine c1Engine 0 false =
      some ({ c1Engine with
                instruction := (instrScanFwd c1Engine.instruction (3 : Int)
                  c1Engine.instrBps).1 },
            [Event.stopOnInstructionBreakpoint 0 c1Engine.currentCol], true) :=
  ⟨by decide, by decide, by decide,
   c1_instruction_bp_preempts c1Engine 0 false 0 3 (by decide) (by decide) (by decide)⟩

/-- The variable scan over a run of bare references to a single unseen
name classifies no access: it stops nothing and leaves the seen-set and
the locals untouched, whatever data breakpoints are registered. -/
theorem runVarScan_bare_unseen (dataBps : List (String × String)) (name : String)
    (ms : List VarMatch) : ∀ (seen : List String) (locals : List (String × Value)),
    seen.contains name = false →
    (∀ m ∈ ms, m.name = name ∧ m.value = none) →
    runVarScan dataBps seen locals ms = (seen, locals, false) := by
  induction ms with
  | nil => intro seen locals _ _; rfl
  | cons m rest ih =>
      intro seen locals hseen hall
      obtain ⟨hname, hval⟩ := hall m (List.mem_cons_self m rest)
      unfold runVarScan
      rw [hval]
      simp only [hname, hseen, if_false, Bool.false_eq_true]
      exact ih seen locals hseen (fun m' hm' => hall m' (List.mem_cons_of_mem m hm'))

/-- Output events are never data-breakpoint stops. -/
theorem logOutputs_no_dataBp (text file : String) (ln : Nat) :
    ((logMatches text).map
        (fun m => Event.output m.1 m.2.1 file ln m.2.2)).all
      (fun ev => !ev.isDataBpStop) = true := by
  rw [List.all_eq_true]
  intro ev hev
  rw [List.mem_map] at hev
  obtain ⟨m, -, rfl⟩ := hev
  rfl

/-- C10: `SetVariable` updates only the local value table and never marks
the name as seen; consequently, for a name never assigned by an executed
`$name=value` token (so not in the seen-set), executing a line whose
`$`-tokens are all bare references to that name classifies no access and
never emits a data-breakpoint stop — even though a data breakpoint (of
any mode, `read` included) may be registered for the name — and leaves the
seen-set unchanged. -/
theorem c10_setvariable_not_seen (e : Engine) (name : String) (v : Value) (ln : Nat)
    (reverse : Bool)
    (hseen : e.seenVars.contains name = false)
    (hbare : ∀ m ∈ varMatches (trimString (getLine e ln)), m.name = name ∧ m.value = none) :
    (SetVariable e name v).seenVars = e.seenVars ∧
    (match executeLine (SetVariable e name v) ln reverse with
     | some r => r.1.seenVars = e.seenVars ∧ r.2.1.all (fun ev => !ev.isDataBpStop) = true
     | none => True) := by
  refine ⟨rfl, ?_⟩
  unfold executeLine
  rcases hs : (SetVariable e name v).starts.get? ln with _ | startA
  · simp [hs]
  rcases he : (SetVariable e name v).ends.get? ln with _ | endA
  · simp [hs, he]
  have hscan : runVarScan (SetVariable e name v).dataBps
      (SetVariable e name v).seenVars (SetVariable e name v).locals
      (varMatches (trimString (getLine (SetVariable e name v) ln)))
      = ((SetVariable e name v).seenVars, (SetVariable e name v).locals, false) :=
    runVarScan_bare_unseen _ name _ _ _ hseen hbare
  by_cases hhit : (if reverse then instrScanRev (SetVariable e name v).instruction
      ((startA : Int)) (SetVariable e name v).instrBps
    else instrScanFwd (SetVariable e name v).instruction ((endA : Int))
      (SetVariable e name v).instrBps).2 = true
  · simp only [hs, he, hhit, if_true]
    exact ⟨rfl, rfl⟩
  · simp only [hs, he, hhit, if_false, Bool.not_eq_true] at *
    simp only [hhit, Bool.false_eq_true, if_false, hscan]
    rcases hexc : excCheck (SetVariable e name v).namedException
        (SetVariable e name v).otherExceptions
        (trimString (getLine (SetVariable e name v) ln)) with _ | exc
    · simp only [hexc]
      exact ⟨rfl, logOutputs_no_dataBp _ _ _⟩
    · simp only [hexc]
      refine ⟨rfl, ?_⟩
      rw [List.all_append]
      rw [logOutputs_no_dataBp]
      rfl

/-- Engine for the C10 witness: the one-line source `"$x log(hi)"` with a
read data breakpoint registered for `x`; `x` has never been assigned by an
executed token. -/
def c10Engine : Engine :=
  (SetDataBreakpoint (LoadSource initEngine "p.md" "$x log(hi)") "x" "read").1

/-- C10 witness: after `SetVariable("x", …)` the seen-set is unchanged,
and executing the bare-reference line stops on nothing and emits no
data-breakpoint event despite the registered read breakpoint. -/
theorem c10_setvariable_not_seen_witness :
    c10Engine.seenVars.contains "x" = false ∧
    (match executeLine (SetVariable c10Engine "x" (Value.vRaw "1")) 0 false with
     | some r => r.1.seenVars = c10Engine.seenVars ∧
         r.2.1.all (fun ev => !ev.isDataBpStop) = true
     | none => True) :=
  ⟨by decide,
   (c10_setvariable_not_seen c10Engine "x" (Value.vRaw "1") 0 false (by decide)
      (by decide)).2⟩

/-- A call result stops with reason `exception` carrying name `nm`: the
result is a stop (`true` flag) whose event list contains the exception
stop event for line `ln` with `nm`. -/
def excStopIn (r : Option (Engine × List Event × Bool)) (ln : Nat) (nm : Option String)
    (col : Option Int) : Bool :=
  match r with
  | some (_, evs, true) => decide (Event.stopOnException ln nm col ∈ evs)
  | _ => false

/-- Unfolding of `excCheck` when the parenthesized form matches. -/
theorem excCheck_eq_name (named : Option String) (others : Bool) (text : String)
    (raw : String) (hm : excNameMatch text.toList = some raw) :
    excCheck named others text =
      (if named = some (trimString raw) then some (some (trimString raw))
       else if others then some none else none) := by
  unfold excCheck
  rw [hm]

/-- Unfolding of `excCheck` when the parenthesized form does not match. -/
theorem excCheck_eq_bare (named : Option String) (others : Bool) (text : String)
    (hm : excNameMatch text.toList = none) :
    excCheck named others text =
      (if excToken text.toList && others then some none else none) := by
  unfold excCheck
  rw [hm]

/-- C4: given that the instruction scan and the variable scan of
`executeLine` do not themselves stop, `executeLine` stops with reason
`exception` carrying name `nm` if and only if: the line's trimmed text has
a parenthesized `exception(name)` whose trimmed name equals the configured
named filter (and then `nm` is that name), or it has a parenthesized
`exception(name)` with a non-matching name while "other exceptions" is
enabled (`nm` empty), or it has no parenthesized form but the bare word
`exception` while "other exceptions" is enabled (`nm` empty).  In
particular (second conjunct), with named filter `"Err"` and
other-exceptions disabled, `Continue(false)` over the §8 scenario program
stops at line 4 with reason `exception` and name `"Err"`, emitting the
line-1 output but no `OnEnd`. -/
theorem c4_exception_stop (e : Engine) (ln : Nat) (reverse : Bool) (startA endA : Nat)
    (hs : e.starts.get? ln = some startA) (he : e.ends.get? ln = some endA)
    (hscan : (if reverse then instrScanRev e.instruction (startA : Int) e.instrBps
              else instrScanFwd e.instruction (endA : Int) e.instrBps).2 = false)
    (hvar : (runVarScan e.dataBps e.seenVars e.locals
        (varMatches (trimString (getLine e ln)))).2.2 = false) :
    (∀ nm : Option String,
      excStopIn (executeLine e ln reverse) ln nm e.currentCol = true
      ↔
      ((∃ raw, excNameMatch (trimString (getLine e ln)).toList = some raw ∧
          e.namedException = some (trimString raw) ∧ nm = some (trimString raw)) ∨
       (∃ raw, excNameMatch (trimString (getLine e ln)).toList = some raw ∧
          e.namedException ≠ some (trimString raw) ∧ e.otherExceptions = true ∧
          nm = none) ∨
       (excNameMatch (trimString (getLine e ln)).toList = none ∧
        excToken (trimString (getLine e ln)).toList = true ∧ e.otherExceptions = true ∧
        nm = none))) ∧
    (Continue scenarioEngineErr false).map (fun r => r.2) =
      some [Event.output "log" "hello" "p.md" 1 0,
            Event.stopOnException 4 (some "Err") none] := by
  refine ⟨?_, by decide⟩
  intro nm
  unfold executeLine
  rw [hs, he]
  simp only [hscan, Bool.false_eq_true, if_false, hvar]
  rcases hm : excNameMatch (trimString (getLine e ln)).toList with _ | raw
  · rw [excCheck_eq_bare _ _ _ hm]
    by_cases hb : (excToken (trimString (getLine e ln)).toList && e.otherExceptions) = true
    · rw [if_pos hb]
      rw [Bool.and_eq_true] at hb
      constructor
      · intro h
        simp only [excStopIn, decide_eq_true_eq, List.mem_append, List.mem_map,
          List.mem_singleton, Event.stopOnException.injEq] at h
        rcases h with ⟨m, -, hcontra⟩ | h2
        · cases hcontra
        · simp only [true_and, and_true] at h2
          exact Or.inr (Or.inr ⟨rfl, hb.1, hb.2, h2⟩)
      · rintro (⟨raw', hmm, -, -⟩ | ⟨raw', hmm, -, -, -⟩ | ⟨-, -, -, rfl⟩)
        · cases hmm
        · cases hmm
        · simp [excStopIn]
    · rw [if_neg hb]
      simp only [excStopIn, Bool.false_eq_true, false_iff]
      rintro (⟨raw', hmm, -, -⟩ | ⟨raw', hmm, -, -, -⟩ | ⟨-, ht, ho, -⟩)
      · cases hmm
      · cases hmm
      · exact hb (by rw [ht, ho]; rfl)
  · rw [excCheck_eq_name _ _ _ _ hm]
    by_cases hn : e.namedException = some (trimString raw)
    · rw [if_pos hn]
      constructor
      · intro h
        simp only [excStopIn, decide_eq_true_eq, List.mem_append, List.mem_map,
          List.mem_singleton, Event.stopOnException.injEq] at h
        rcases h with ⟨m, -, hcontra⟩ | h2
        · cases hcontra
        · simp only [true_and, and_true] at h2
          exact Or.inl ⟨raw, rfl, hn, h2⟩
      · rintro (⟨raw', hmm, -, hnm⟩ | ⟨raw', hmm, hn', -, -⟩ | ⟨hmm, -, -, -⟩)
        · cases hmm
          subst hnm
          simp [excStopIn]
        · cases hmm
          exact absurd hn hn'
        · cases hmm
    · rw [if_neg hn]
      by_cases ho : e.otherExceptions = true
      · rw [if_pos ho]
        constructor
        · intro h
          simp only [excStopIn, decide_eq_true_eq, List.mem_append, List.mem_map,
            List.mem_singleton, Event.stopOnException.injEq] at h
          rcases h with ⟨m, -, hcontra⟩ | h2
          · cases hcontra
          · simp only [true_and, and_true] at h2
            exact Or.inr (Or.inl ⟨raw, rfl, hn, ho, h2⟩)
        · rintro (⟨raw', hmm, hn', -⟩ | ⟨raw', hmm, -, -, rfl⟩ | ⟨hmm, -, -, -⟩)
          · cases hmm
            exact absurd hn' hn
          · simp [excStopIn]
          · cases hmm
      · rw [if_neg ho]
        simp only [excStopIn, Bool.false_eq_true, false_iff]
        rintro (⟨raw', hmm, hn', -⟩ | ⟨raw', hmm, -, ho', -⟩ | ⟨hmm, -, -, -⟩)
        · cases hmm
          exact absurd hn' hn
        · cases hmm
          exact absurd ho' ho
        · cases hmm

/-- Engine for the C4 witness: the one-line source `"exception(Err)"`
with named exception filter `"Err"` and other-exceptions disabled. -/
def c4Engine : Engine :=
  SetExceptionsFilters (LoadSource initEngine "p.md" "exception(Err)") (some "Err") false

/-- C4 witness: on `c4Engine`, `executeLine` of line 0 stops with reason
`exception` carrying the name `"Err"`. -/
theorem c4_exception_stop_witness :
    excStopIn (executeLine c4Engine 0 false) 0 (some "Err") c4Engine.currentCol = true :=
  ((c4_exception_stop c4Engine 0 false 0 2 (by decide) (by decide) (by decide)
        (by decide)).1 (some "Err")).mpr
    (Or.inl ⟨"Err", by decide, by decide, by decide⟩)

end MockEngine
